import Mathlib

/-!
Verification of the documentation index builder described in `spec.md`
against the repository's generated sidebar artifact
(`src/ink_env/call/call_builder/sidebar-items.js`).

The repository ships only the generated data artifact; the Entry
Collector and Index Serializer components are therefore modelled from
the spec's own contract (sections 3, 4.1, 4.2, 7), and the concrete
artifact grounds the scenario claims.
-/

/-- The kind tag of a documented item.  Modelled from the spec (section 3):
"an enumerated tag, one of \x7bfunction, module, struct, trait, enum,
constant, type-alias, ...\x7d.  Closed set."  The tags observed in the
artifact are fn, mod, struct and trait. -/
inductive Kind where
  | kFn
  | kMod
  | kStruct
  | kTrait
  | kEnum
  | kConstant
  | kTypeAlias
deriving DecidableEq, Repr

/-- The textual tag a kind carries in the serialized artifact, as observed
in `sidebar-items.js`. -/
def Kind.tag : Kind → String
  | .kFn => "fn"
  | .kMod => "mod"
  | .kStruct => "struct"
  | .kTrait => "trait"
  | .kEnum => "enum"
  | .kConstant => "constant"
  | .kTypeAlias => "type-alias"

/-- One documented item inside a kind.  Modelled from the spec (section 3):
"Entry: \x7bname: identifier string, summary: short descriptive text,
optional link target\x7d". -/
structure Entry where
  name : String
  summary : String
  link : Option String
deriving DecidableEq, Repr

/-- A raw item declaration handed to the Entry Collector.  Modelled from the
spec (sections 4.1 and 6): a record with a kind tag, a name, a summary and
an optional link; name or kind may be missing, which makes the declaration
malformed. -/
structure RawDecl where
  kind : Option Kind
  name : Option String
  summary : String
  link : Option String
deriving DecidableEq, Repr

/-- The per-module index: a mapping from `Kind` to an ordered sequence of
`Entry`.  Modelled from the spec (section 3). -/
structure ModuleIndex where
  groups : Kind → List Entry

/-- Warnings recorded by the Entry Collector.  Modelled from the spec
(section 7): MalformedDeclaration and DuplicateEntry are recovered locally
with a recorded warning. -/
inductive Warning where
  | malformed (d : RawDecl)
  | duplicate (k : Kind) (n : String)
deriving DecidableEq, Repr

/-- State threaded through the Entry Collector: the index built so far and
the warnings recorded so far. -/
structure CollectState where
  index : ModuleIndex
  warnings : List Warning

/-- The empty module index: every kind maps to the empty entry sequence. -/
def emptyIndex : ModuleIndex := ⟨fun _ => []⟩

/-- The entry a well-formed declaration contributes. -/
def mkEntry (n : String) (d : RawDecl) : Entry :=
  ⟨n, d.summary, d.link⟩

/-- One step of the Entry Collector.  Modelled from the spec (section 4.1):
a declaration missing its name or kind is skipped and a malformed warning
recorded; a declaration whose (kind, name) is already present is dropped
and a duplicate warning recorded; otherwise the entry is appended to its
kind's sequence. -/
def collectStep (s : CollectState) (d : RawDecl) : CollectState :=
  match d.kind, d.name with
  | some k, some n =>
    if (s.index.groups k).any (fun e => e.name == n) then
      { s with warnings := s.warnings ++ [Warning.duplicate k n] }
    else
      { index := ⟨fun k2 => if k2 = k then s.index.groups k ++ [mkEntry n d] else s.index.groups k2⟩,
        warnings := s.warnings }
  | _, _ => { s with warnings := s.warnings ++ [Warning.malformed d] }

/-- The Entry Collector.  Modelled from the spec (section 4.1): processes
the raw declarations in input order, starting from the empty index with no
warnings. -/
def collect (decls : List RawDecl) : CollectState :=
  decls.foldl collectStep ⟨emptyIndex, []⟩

/-- A declaration is well formed when it carries both a kind and a name. -/
def RawDecl.wellFormed (d : RawDecl) : Bool :=
  d.kind.isSome && d.name.isSome

/-- The argument object of the `initSidebarItems` call in
`src/ink_env/call/call_builder/sidebar-items.js`, embedded literally:
each key is a kind tag, each value a list of two-element string lists. -/
def initSidebarItemsArg : List (String × List (List String)) :=
  [ ("fn", [["build_call", "Returns a new [`CallBuilder`] to build up the parameters to a cross-contract call."]]),
    ("mod", [["seal", ""]]),
    ("struct", [["CallBuilder", "Builds up a cross contract call."],
                ["CallParams", "The final parameters to the cross-contract call."]]),
    ("trait", [["IndicateReturnType", "Types that can be used in [`CallBuilder::returns`] to signal return type."]]) ]

/-- The raw declarations of the spec's section 8 scenario, in input order,
with summaries taken from the artifact. -/
def scenarioDecls : List RawDecl :=
  [ ⟨some .kFn, some "build_call", "Returns a new [`CallBuilder`] to build up the parameters to a cross-contract call.", none⟩,
    ⟨some .kStruct, some "CallBuilder", "Builds up a cross contract call.", none⟩,
    ⟨some .kStruct, some "CallParams", "The final parameters to the cross-contract call.", none⟩,
    ⟨some .kTrait, some "IndicateReturnType", "Types that can be used in [`CallBuilder::returns`] to signal return type.", none⟩,
    ⟨some .kMod, some "seal", "", none⟩ ]

/-- Lexicographic comparison of character sequences: shorter is smaller,
equal heads recurse, distinct heads compare by code point. -/
def charsLe : List Char → List Char → Bool
  | [], _ => true
  | _ :: _, [] => false
  | c1 :: t1, c2 :: t2 => if c1 = c2 then charsLe t1 t2 else decide (c1 < c2)

/-- Lexicographic comparison of strings by their character data. -/
def strLe (a b : String) : Bool := charsLe a.data b.data

theorem charsLe_total : ∀ a b : List Char, charsLe a b = true ∨ charsLe b a = true
  | [], _ => Or.inl rfl
  | _ :: _, [] => Or.inr rfl
  | c1 :: t1, c2 :: t2 => by
    by_cases h : c1 = c2
    · subst h
      simpa [charsLe] using charsLe_total t1 t2
    · rcases lt_or_gt_of_ne h with hlt | hgt
      · exact Or.inl (by simp [charsLe, h, hlt])
      · exact Or.inr (by simp [charsLe, Ne.symm h, hgt])

theorem charsLe_trans :
    ∀ a b c : List Char, charsLe a b = true → charsLe b c = true → charsLe a c = true
  | [], _, _, _, _ => rfl
  | _ :: _, [], _, h1, _ => by simp [charsLe] at h1
  | _ :: _, _ :: _, [], _, h2 => by simp [charsLe] at h2
  | c1 :: t1, c2 :: t2, c3 :: t3, h1, h2 => by
    by_cases e12 : c1 = c2 <;> by_cases e23 : c2 = c3
    · subst e12; subst e23
      simp only [charsLe, if_pos rfl] at h1 h2 ⊢
      exact charsLe_trans t1 t2 t3 h1 h2
    · subst e12
      simp only [charsLe, if_neg e23] at h2 ⊢
      exact h2
    · subst e23
      simp only [charsLe, if_neg e12] at h1 ⊢
      exact h1
    · simp only [charsLe, if_neg e12] at h1
      simp only [charsLe, if_neg e23] at h2
      have h13 : c1 < c3 := lt_trans (of_decide_eq_true h1) (of_decide_eq_true h2)
      simp [charsLe, ne_of_lt h13, h13]

/-- Lexicographic-by-name order on entries, used by the Index Serializer
when no override order is supplied for a kind. -/
def entryLe (a b : Entry) : Prop := strLe a.name b.name = true

instance : DecidableRel entryLe :=
  fun a b => inferInstanceAs (Decidable (strLe a.name b.name = true))

instance : IsTotal Entry entryLe := ⟨fun a b => charsLe_total a.name.data b.name.data⟩

instance : IsTrans Entry entryLe :=
  ⟨fun _ _ _ h1 h2 => charsLe_trans _ _ _ h1 h2⟩

/-- An explicit override order, per kind, for the serializer.  Modelled from
the spec (section 4.2): entries within a kind are lexicographic by name
"unless an explicit override order was supplied". -/
def OverrideOrder := Kind → Option (List String)

/-- The override configuration that supplies no override for any kind. -/
def noOverride : OverrideOrder := fun _ => none

/-- Order the entries of one kind for serialization.  Modelled from the
spec (section 4.2): lexicographic by name, unless an explicit override
order was supplied for the kind, in which case that order is followed. -/
def orderEntries (ov : OverrideOrder) (k : Kind) (es : List Entry) : List Entry :=
  match ov k with
  | none => es.insertionSort entryLe
  | some ord => ord.filterMap (fun n => es.find? (fun e => e.name == n))

/-- The fixed, predeclared precedence list of kinds for serialization.
Modelled from the spec (section 4.2), with the relative order of fn, mod,
struct and trait as observed in the artifact. -/
def kindPrecedence : List Kind :=
  [.kFn, .kMod, .kStruct, .kTrait, .kEnum, .kConstant, .kTypeAlias]

/-- The structured serialization of a module index: kinds in the fixed
precedence order, kinds with no entries omitted (as in the artifact),
entries ordered by `orderEntries`.  Modelled from the spec (section 4.2). -/
def serializeData (ov : OverrideOrder) (m : ModuleIndex) : List (Kind × List Entry) :=
  (kindPrecedence.filter (fun k => !(m.groups k).isEmpty)).map
    (fun k => (k, orderEntries ov k (m.groups k)))

/-- Wrap a string in double quotes for the textual artifact. -/
def quoteStr (s : String) : String := "\"" ++ s ++ "\""

/-- Render one entry as a two-element array of name and summary, as in the
artifact. -/
def renderEntry (e : Entry) : String :=
  "[" ++ quoteStr e.name ++ "," ++ quoteStr e.summary ++ "]"

/-- Render one kind's group as a key/value pair, as in the artifact. -/
def renderGroup (k : Kind) (es : List Entry) : String :=
  quoteStr k.tag ++ ":[" ++ String.intercalate "," (es.map renderEntry) ++ "]"

/-- Render the whole textual artifact in the shape of
`sidebar-items.js`. -/
def renderIndex (gs : List (Kind × List Entry)) : String :=
  "initSidebarItems(\x7b" ++ String.intercalate "," (gs.map (fun g => renderGroup g.1 g.2)) ++ "\x7d);"

/-- Check the (Kind, name) uniqueness invariant of a module index: for
every kind the entry names are pairwise distinct. -/
def checkInvariant (m : ModuleIndex) : Bool :=
  kindPrecedence.all (fun k => decide ((m.groups k).map Entry.name).Nodup)

/-- The Index Serializer.  Modelled from the spec (section 4.2): emits the
deterministic textual artifact, or fails fatally without emitting output
when the module index violates the uniqueness invariant. -/
def serialize (ov : OverrideOrder) (m : ModuleIndex) : Except String String :=
  if checkInvariant m then
    Except.ok (renderIndex (serializeData ov m))
  else
    Except.error "ModuleIndex violates the (Kind, name) uniqueness invariant"

/-- The full text of `src/ink_env/call/call_builder/sidebar-items.js`. -/
def sidebarItemsFileText : String :=
  "initSidebarItems(\x7b\"fn\":[[\"build_call\",\"Returns a new [`CallBuilder`] to build up the parameters to a cross-contract call.\"]],\"mod\":[[\"seal\",\"\"]],\"struct\":[[\"CallBuilder\",\"Builds up a cross contract call.\"],[\"CallParams\",\"The final parameters to the cross-contract call.\"]],\"trait\":[[\"IndicateReturnType\",\"Types that can be used in [`CallBuilder::returns`] to signal return type.\"]]\x7d);"

set_option maxRecDepth 4000 in
/-- Grounding of the model in the repository: collecting the scenario
declarations and serializing the result reproduces the shipped
`sidebar-items.js` byte for byte. -/
theorem serialize_scenario_eq_fileText :
    serialize noOverride (collect scenarioDecls).index = Except.ok sidebarItemsFileText := by rfl

theorem collectStep_nodup (s : CollectState) (d : RawDecl)
    (h : ∀ k, ((s.index.groups k).map Entry.name).Nodup) :
    ∀ k, (((collectStep s d).index.groups k).map Entry.name).Nodup := by
  rcases d with ⟨ok, onam, dsum, dlink⟩
  cases ok with
  | none => simpa [collectStep] using h
  | some k0 =>
    cases onam with
    | none => simpa [collectStep] using h
    | some n =>
      by_cases hany : (s.index.groups k0).any (fun e => e.name == n) = true
      · simpa [collectStep, hany] using h
      · intro k
        by_cases hk : k = k0
        · subst hk
          simp only [collectStep, hany, Bool.false_eq_true, if_false, eq_self_iff_true,
            if_true, List.map_append, List.nodup_append]
          refine ⟨h k, List.nodup_singleton _, ?_⟩
          intro x hx hx2
          rw [Bool.not_eq_true, List.any_eq_false] at hany
          rcases List.mem_map.mp hx with ⟨e, he, hen⟩
          have hne := hany e he
          simp only [mkEntry, List.map_cons, List.map_nil, List.mem_singleton] at hx2
          subst hx2
          simp only [beq_iff_eq] at hne
          exact hne hen
        · simpa [collectStep, hany, hk] using h k

theorem foldl_collectStep_nodup (decls : List RawDecl) :
    ∀ s : CollectState, (∀ k, ((s.index.groups k).map Entry.name).Nodup) →
    ∀ k, (((decls.foldl collectStep s).index.groups k).map Entry.name).Nodup := by
  induction decls with
  | nil => intro s h; simpa using h
  | cons d rest ih =>
    intro s h
    exact ih (collectStep s d) (collectStep_nodup s d h)

/-- C1: for every input sequence of raw declarations, the ModuleIndex
produced by the Entry Collector has no duplicate (Kind, name) pairs: for
every kind, the names of the entries in its sequence are pairwise
distinct. -/
theorem collect_no_duplicate_names (decls : List RawDecl) (k : Kind) :
    (((collect decls).index.groups k).map Entry.name).Nodup := by
  refine foldl_collectStep_nodup decls _ ?_ k
  intro k2
  simp [emptyIndex]

/-- The entries of the scenario, as they appear in the artifact. -/
def entryBuildCall : Entry :=
  ⟨"build_call", "Returns a new [`CallBuilder`] to build up the parameters to a cross-contract call.", none⟩

/-- The seal module entry of the artifact; its summary is empty. -/
def entrySeal : Entry := ⟨"seal", "", none⟩

/-- The CallBuilder struct entry of the artifact. -/
def entryCallBuilder : Entry := ⟨"CallBuilder", "Builds up a cross contract call.", none⟩

/-- The CallParams struct entry of the artifact. -/
def entryCallParams : Entry := ⟨"CallParams", "The final parameters to the cross-contract call.", none⟩

/-- The IndicateReturnType trait entry of the artifact. -/
def entryIndicateReturnType : Entry :=
  ⟨"IndicateReturnType", "Types that can be used in [`CallBuilder::returns`] to signal return type.", none⟩

/-- C2: on the scenario input sequence, the Entry Collector produces a
ModuleIndex whose groups are exactly fn:[build_call], mod:[seal],
struct:[CallBuilder, CallParams], trait:[IndicateReturnType] (all other
kinds empty), with the two struct entries in alphabetical order by
name. -/
theorem collect_scenario_groups :
    (collect scenarioDecls).index.groups .kFn = [entryBuildCall] ∧
    (collect scenarioDecls).index.groups .kMod = [entrySeal] ∧
    (collect scenarioDecls).index.groups .kStruct = [entryCallBuilder, entryCallParams] ∧
    (collect scenarioDecls).index.groups .kTrait = [entryIndicateReturnType] ∧
    (collect scenarioDecls).index.groups .kEnum = [] ∧
    (collect scenarioDecls).index.groups .kConstant = [] ∧
    (collect scenarioDecls).index.groups .kTypeAlias = [] ∧
    strLe entryCallBuilder.name entryCallParams.name = true := by
  refine ⟨?_, ?_, ?_, ?_, ?_, ?_, ?_, ?_⟩ <;> rfl

/-- C3: the Index Serializer is a deterministic function of the
ModuleIndex (and override configuration) alone: serializing an unchanged
ModuleIndex twice yields identical output. -/
theorem serialize_deterministic (ov : OverrideOrder) (m1 m2 : ModuleIndex) (h : m1 = m2) :
    serialize ov m1 = serialize ov m2 := by rw [h]

/-- Witness for C3 at the scenario index. -/
theorem serialize_deterministic_witness :
    (collect scenarioDecls).index = (collect scenarioDecls).index ∧
    serialize noOverride (collect scenarioDecls).index
      = serialize noOverride (collect scenarioDecls).index :=
  ⟨rfl, serialize_deterministic noOverride _ _ rfl⟩

/-- C4: in the serialized artifact, the entries listed under a kind for
which no override order was supplied are sorted lexicographically by
name. -/
theorem serializeData_entries_sorted (ov : OverrideOrder) (m : ModuleIndex) (k : Kind)
    (es : List Entry) (hov : ov k = none) (hmem : (k, es) ∈ serializeData ov m) :
    List.Sorted entryLe es := by
  simp only [serializeData, List.mem_map, List.mem_filter] at hmem
  rcases hmem with ⟨k2, hk2, heq⟩
  rw [Prod.ext_iff] at heq
  obtain ⟨hk, hes⟩ := heq
  dsimp at hk hes
  subst hk
  rw [← hes]
  simp only [orderEntries, hov]
  exact List.sorted_insertionSort entryLe _

set_option maxRecDepth 4000 in
/-- Witness for C4 at the scenario module's struct group. -/
theorem serializeData_entries_sorted_witness :
    noOverride .kStruct = none ∧
    (Kind.kStruct, [entryCallBuilder, entryCallParams])
      ∈ serializeData noOverride (collect scenarioDecls).index ∧
    List.Sorted entryLe [entryCallBuilder, entryCallParams] :=
  ⟨rfl, by decide, serializeData_entries_sorted noOverride (collect scenarioDecls).index
    .kStruct [entryCallBuilder, entryCallParams] rfl (by decide)⟩

/-- A batch of modules serialized independently, keyed by module path.
Modelled from the spec (sections 5 and 7): each ModuleIndex is
independently built and serialized; one module's failure leaves the
others unaffected. -/
def serializeBatch (ov : OverrideOrder) (mods : List (List String × ModuleIndex)) :
    List (List String × Except String String) :=
  mods.map (fun pm => (pm.1, serialize ov pm.2))

/-- C7: on a ModuleIndex violating the (Kind, name) uniqueness invariant,
serialization fails with a fatal error instead of emitting output, and in
a batch the failure affects only that module: every other module's
artifact is exactly what it would be without the failing module. -/
theorem serialize_invariant_violation_fatal (ov : OverrideOrder) (m : ModuleIndex)
    (h : checkInvariant m = false) :
    serialize ov m = Except.error "ModuleIndex violates the (Kind, name) uniqueness invariant" ∧
    ∀ (p : List String) (mods : List (List String × ModuleIndex)),
      serializeBatch ov ((p, m) :: mods)
        = (p, Except.error "ModuleIndex violates the (Kind, name) uniqueness invariant")
            :: serializeBatch ov mods := by
  constructor
  · simp [serialize, h]
  · intro p mods
    simp [serializeBatch, serialize, h]

/-- A module index that violates the uniqueness invariant: two fn entries
both named a. -/
def dupIndex : ModuleIndex :=
  ⟨fun k => match k with
    | .kFn => [⟨"a", "first", none⟩, ⟨"a", "second", none⟩]
    | _ => []⟩

/-- Witness for C7 at `dupIndex`. -/
theorem serialize_invariant_violation_fatal_witness :
    checkInvariant dupIndex = false ∧
    (serialize noOverride dupIndex
        = Except.error "ModuleIndex violates the (Kind, name) uniqueness invariant" ∧
     ∀ (p : List String) (mods : List (List String × ModuleIndex)),
       serializeBatch noOverride ((p, dupIndex) :: mods)
         = (p, Except.error "ModuleIndex violates the (Kind, name) uniqueness invariant")
             :: serializeBatch noOverride mods) :=
  ⟨by decide, serialize_invariant_violation_fatal noOverride dupIndex (by decide)⟩

theorem collectStep_index_congr (s1 s2 : CollectState) (d : RawDecl)
    (h : s1.index = s2.index) : (collectStep s1 d).index = (collectStep s2 d).index := by
  rcases d with ⟨ok, onam, dsum, dlink⟩
  cases ok with
  | none => simpa [collectStep] using h
  | some k0 =>
    cases onam with
    | none => simpa [collectStep] using h
    | some n =>
      by_cases hany : ((s2.index.groups k0).any fun e => e.name == n) = true
      · simp [collectStep, h, hany]
      · simp [collectStep, h, hany]

theorem foldl_collectStep_index_congr :
    ∀ (decls : List RawDecl) (s1 s2 : CollectState), s1.index = s2.index →
    (decls.foldl collectStep s1).index = (decls.foldl collectStep s2).index := by
  intro decls
  induction decls with
  | nil => intro s1 s2 h; simpa using h
  | cons d rest ih =>
    intro s1 s2 h
    exact ih (collectStep s1 d) (collectStep s2 d) (collectStep_index_congr s1 s2 d h)

theorem collectStep_index_of_malformed (s : CollectState) (d : RawDecl)
    (h : d.wellFormed = false) : (collectStep s d).index = s.index := by
  rcases d with ⟨ok, onam, dsum, dlink⟩
  cases ok with
  | none => simp [collectStep]
  | some k0 =>
    cases onam with
    | none => simp [collectStep]
    | some n => simp [RawDecl.wellFormed] at h

theorem foldl_collectStep_filter_wf :
    ∀ (decls : List RawDecl) (s : CollectState),
    (decls.foldl collectStep s).index
      = ((decls.filter RawDecl.wellFormed).foldl collectStep s).index := by
  intro decls
  induction decls with
  | nil => intro s; rfl
  | cons d rest ih =>
    intro s
    rw [List.filter_cons]
    by_cases hwf : d.wellFormed = true
    · rw [if_pos hwf]
      simp only [List.foldl_cons]
      exact ih (collectStep s d)
    · rw [if_neg hwf]
      simp only [List.foldl_cons]
      calc (rest.foldl collectStep (collectStep s d)).index
          = (rest.foldl collectStep s).index :=
            foldl_collectStep_index_congr rest _ _
              (collectStep_index_of_malformed s d (Bool.eq_false_iff.mpr hwf))
        _ = ((rest.filter RawDecl.wellFormed).foldl collectStep s).index := ih s

/-- Projection selecting the malformed-declaration warnings. -/
def malformedOf : Warning → Option RawDecl
  | .malformed d => some d
  | .duplicate _ _ => none

theorem foldl_collectStep_malformed :
    ∀ (decls : List RawDecl) (s : CollectState),
    ((decls.foldl collectStep s).warnings).filterMap malformedOf
      = s.warnings.filterMap malformedOf ++ decls.filter (fun d => !d.wellFormed) := by
  intro decls
  induction decls with
  | nil => intro s; simp
  | cons d rest ih =>
    intro s
    simp only [List.foldl_cons, List.filter_cons]
    rcases d with ⟨ok, onam, dsum, dlink⟩
    cases ok with
    | none =>
      rw [ih]
      simp [collectStep, RawDecl.wellFormed, malformedOf]
    | some k0 =>
      cases onam with
      | none =>
        rw [ih]
        simp [collectStep, RawDecl.wellFormed, malformedOf]
      | some n =>
        by_cases hany :
            (s.index.groups k0).any (fun e => e.name == n) = true
        · rw [ih]
          simp [collectStep, hany, RawDecl.wellFormed, malformedOf]
        · rw [ih]
          simp [collectStep, hany, RawDecl.wellFormed, malformedOf]

/-- C6: a raw declaration missing a name or kind is excluded from the
ModuleIndex and produces exactly one malformed warning (the malformed
warnings are exactly the malformed declarations, in input order), and its
rejection does not abort collection: the index equals the one produced
from the well-formed declarations alone. -/
theorem collect_malformed_skip_and_report (decls : List RawDecl) :
    (collect decls).index = (collect (decls.filter RawDecl.wellFormed)).index ∧
    (collect decls).warnings.filterMap malformedOf
      = decls.filter (fun d => !d.wellFormed) := by
  constructor
  · exact foldl_collectStep_filter_wf decls _
  · simpa using foldl_collectStep_malformed decls _

/-- Does a raw declaration declare exactly (k, n)? -/
def isDeclOf (k : Kind) (n : String) (d : RawDecl) : Bool :=
  d.kind == some k && d.name == some n

/-- Does the index contain an entry named n under kind k? -/
def hasEntry (m : ModuleIndex) (k : Kind) (n : String) : Bool :=
  (m.groups k).any (fun e => e.name == n)

/-- Number of entries named n under kind k. -/
def entryCount (m : ModuleIndex) (k : Kind) (n : String) : Nat :=
  (m.groups k).countP (fun e => e.name == n)

/-- Number of duplicate warnings recorded for (k, n). -/
def dupWarnCount (w : List Warning) (k : Kind) (n : String) : Nat :=
  w.countP (fun wr => wr == Warning.duplicate k n)

theorem some_beq_some {α : Type} [BEq α] (a b : α) :
    ((some a : Option α) == some b) = (a == b) := rfl

theorem none_beq_some {α : Type} [BEq α] (b : α) :
    ((none : Option α) == some b) = false := rfl

theorem collectStep_eq_dup (s : CollectState) (k0 : Kind) (n0 dsum : String)
    (dlink : Option String)
    (h : ((s.index.groups k0).any fun e => e.name == n0) = true) :
    collectStep s ⟨some k0, some n0, dsum, dlink⟩
      = { s with warnings := s.warnings ++ [Warning.duplicate k0 n0] } := by
  simp [collectStep, h]

theorem collectStep_eq_insert (s : CollectState) (k0 : Kind) (n0 dsum : String)
    (dlink : Option String)
    (h : ((s.index.groups k0).any fun e => e.name == n0) = false) :
    collectStep s ⟨some k0, some n0, dsum, dlink⟩
      = { index := ⟨fun k2 => if k2 = k0
                    then s.index.groups k0 ++ [⟨n0, dsum, dlink⟩]
                    else s.index.groups k2⟩,
          warnings := s.warnings } := by
  simp [collectStep, h, mkEntry]

theorem collectStep_hasEntry (s : CollectState) (d : RawDecl) (k : Kind) (n : String) :
    hasEntry (collectStep s d).index k n = (hasEntry s.index k n || isDeclOf k n d) := by
  rcases d with ⟨ok, onam, dsum, dlink⟩
  cases ok with
  | none => simp [collectStep, isDeclOf, none_beq_some]
  | some k0 =>
    cases onam with
    | none => simp [collectStep, isDeclOf]
    | some n0 =>
      simp only [isDeclOf, some_beq_some]
      by_cases hany : ((s.index.groups k0).any fun e => e.name == n0) = true
      · rw [collectStep_eq_dup s k0 n0 dsum dlink hany]
        by_cases hk : k0 = k
        · subst hk
          by_cases hn : n0 = n
          · subst hn
            have ht : hasEntry s.index k0 n0 = true := hany
            simp [ht, beq_self_eq_true]
          · have hb : (n0 == n) = false := beq_eq_false_iff_ne.mpr hn
            simp [hb]
        · have hb : (k0 == k) = false := beq_eq_false_iff_ne.mpr hk
          simp [hb]
      · rw [collectStep_eq_insert s k0 n0 dsum dlink (Bool.eq_false_iff.mpr hany)]
        by_cases hk : k = k0
        · subst hk
          have hgr : ({ index := ⟨fun k2 => if k2 = k
                          then s.index.groups k ++ [⟨n0, dsum, dlink⟩]
                          else s.index.groups k2⟩,
                        warnings := s.warnings } : CollectState).index.groups k
              = s.index.groups k ++ [⟨n0, dsum, dlink⟩] := by simp
          rw [hasEntry, hgr, List.any_append]
          rw [hasEntry, beq_self_eq_true]
          simp [List.any_cons]
        · have hb : (k0 == k) = false := beq_eq_false_iff_ne.mpr (fun h2 => hk h2.symm)
          have hgr : ({ index := ⟨fun k2 => if k2 = k0
                          then s.index.groups k0 ++ [⟨n0, dsum, dlink⟩]
                          else s.index.groups k2⟩,
                        warnings := s.warnings } : CollectState).index.groups k
              = s.index.groups k := by simp [hk]
          rw [hasEntry, hgr, hasEntry, hb]
          simp

theorem foldl_collectStep_hasEntry :
    ∀ (decls : List RawDecl) (s : CollectState) (k : Kind) (n : String),
    hasEntry (decls.foldl collectStep s).index k n
      = (hasEntry s.index k n || decls.any (isDeclOf k n)) := by
  intro decls
  induction decls with
  | nil => intro s k n; simp
  | cons d rest ih =>
    intro s k n
    simp only [List.foldl_cons, List.any_cons]
    rw [ih, collectStep_hasEntry, Bool.or_assoc]

theorem collectStep_entryCount_of_not (s : CollectState) (d : RawDecl) (k : Kind)
    (n : String) (hd : isDeclOf k n d = false) :
    entryCount (collectStep s d).index k n = entryCount s.index k n := by
  rcases d with ⟨ok, onam, dsum, dlink⟩
  cases ok with
  | none => simp [collectStep, entryCount]
  | some k0 =>
    cases onam with
    | none => simp [collectStep, entryCount]
    | some n0 =>
      by_cases hany : ((s.index.groups k0).any fun e => e.name == n0) = true
      · rw [collectStep_eq_dup s k0 n0 dsum dlink hany]
      · rw [collectStep_eq_insert s k0 n0 dsum dlink (Bool.eq_false_iff.mpr hany)]
        by_cases hk : k = k0
        · subst hk
          simp only [isDeclOf, some_beq_some, beq_self_eq_true, Bool.true_and] at hd
          have hn : ¬(n0 = n) := beq_eq_false_iff_ne.mp hd
          simp only [entryCount]
          simp [List.countP_append, List.countP_cons, beq_eq_false_iff_ne.mpr hn]
        · simp only [entryCount]
          simp [hk]

theorem isDeclOf_fields {d : RawDecl} {k : Kind} {n : String}
    (hd : isDeclOf k n d = true) : d.kind = some k ∧ d.name = some n := by
  rcases d with ⟨ok, onam, dsum, dlink⟩
  cases ok with
  | none => simp [isDeclOf] at hd
  | some k0 =>
    cases onam with
    | none => simp [isDeclOf] at hd
    | some n0 =>
      simp only [isDeclOf, some_beq_some, Bool.and_eq_true, beq_iff_eq] at hd
      simp [hd.1, hd.2]

theorem collectStep_entryCount_of_dup (s : CollectState) (d : RawDecl) (k : Kind)
    (n : String) (hd : isDeclOf k n d = true) (hs : hasEntry s.index k n = true) :
    entryCount (collectStep s d).index k n = entryCount s.index k n := by
  obtain ⟨hk, hn⟩ := isDeclOf_fields hd
  rcases d with ⟨ok, onam, dsum, dlink⟩
  simp only at hk hn
  subst hk; subst hn
  rw [collectStep_eq_dup s k n dsum dlink hs]

theorem collectStep_entryCount_of_new (s : CollectState) (d : RawDecl) (k : Kind)
    (n : String) (hd : isDeclOf k n d = true) (hs : hasEntry s.index k n = false) :
    entryCount (collectStep s d).index k n = entryCount s.index k n + 1 := by
  obtain ⟨hk, hn⟩ := isDeclOf_fields hd
  rcases d with ⟨ok, onam, dsum, dlink⟩
  simp only at hk hn
  subst hk; subst hn
  rw [collectStep_eq_insert s k n dsum dlink hs]
  simp only [entryCount]
  simp [List.countP_append, List.countP_cons]

theorem collectStep_dupWarnCount (s : CollectState) (d : RawDecl) (k : Kind) (n : String) :
    dupWarnCount (collectStep s d).warnings k n
      = dupWarnCount s.warnings k n
        + (if (isDeclOf k n d && hasEntry s.index k n) = true then 1 else 0) := by
  rcases d with ⟨ok, onam, dsum, dlink⟩
  cases ok with
  | none =>
    simp [collectStep, dupWarnCount, isDeclOf, none_beq_some, List.countP_append,
      List.countP_cons]
  | some k0 =>
    cases onam with
    | none => simp [collectStep, dupWarnCount, isDeclOf, List.countP_append, List.countP_cons]
    | some n0 =>
      by_cases hany : ((s.index.groups k0).any fun e => e.name == n0) = true
      · rw [collectStep_eq_dup s k0 n0 dsum dlink hany]
        by_cases hk : k0 = k
        · subst hk
          by_cases hn : n0 = n
          · subst hn
            have ht : hasEntry s.index k0 n0 = true := hany
            simp [dupWarnCount, List.countP_append, List.countP_cons, ht, isDeclOf,
              some_beq_some, beq_self_eq_true]
          · simp [dupWarnCount, List.countP_append, List.countP_cons, isDeclOf,
              some_beq_some, beq_eq_false_iff_ne.mpr hn,
              beq_iff_eq, hn]
        · simp [dupWarnCount, List.countP_append, List.countP_cons, isDeclOf,
            some_beq_some, beq_eq_false_iff_ne.mpr hk, beq_iff_eq,
            fun h => hk (h : k0 = k)]
      · rw [collectStep_eq_insert s k0 n0 dsum dlink (Bool.eq_false_iff.mpr hany)]
        by_cases hk : k0 = k
        · subst hk
          by_cases hn : n0 = n
          · subst hn
            have ht : hasEntry s.index k0 n0 = false := Bool.eq_false_iff.mpr hany
            simp [dupWarnCount, ht]
          · simp [dupWarnCount, isDeclOf, some_beq_some, beq_eq_false_iff_ne.mpr hn]
        · simp [dupWarnCount, isDeclOf, some_beq_some, beq_eq_false_iff_ne.mpr hk]

theorem foldl_collectStep_entryCount :
    ∀ (decls : List RawDecl) (s : CollectState) (k : Kind) (n : String),
    entryCount (decls.foldl collectStep s).index k n
      = entryCount s.index k n
        + (if hasEntry s.index k n = true then 0
           else if decls.any (isDeclOf k n) = true then 1 else 0) := by
  intro decls
  induction decls with
  | nil => intro s k n; simp
  | cons d rest ih =>
    intro s k n
    simp only [List.foldl_cons, List.any_cons]
    rw [ih (collectStep s d) k n, collectStep_hasEntry]
    by_cases hd : isDeclOf k n d = true
    · by_cases hs : hasEntry s.index k n = true
      · rw [collectStep_entryCount_of_dup s d k n hd hs]
        simp [hs, hd]
      · rw [collectStep_entryCount_of_new s d k n hd (Bool.eq_false_iff.mpr hs)]
        simp [Bool.eq_false_iff.mpr hs, hd]
    · rw [collectStep_entryCount_of_not s d k n (Bool.eq_false_iff.mpr hd)]
      simp only [Bool.eq_false_iff.mpr hd, Bool.or_false, Bool.false_or]

theorem collectStep_count_step (s : CollectState) (d : RawDecl) (k : Kind) (n : String) :
    dupWarnCount (collectStep s d).warnings k n + entryCount (collectStep s d).index k n
      = dupWarnCount s.warnings k n + entryCount s.index k n
        + (if isDeclOf k n d = true then 1 else 0) := by
  rw [collectStep_dupWarnCount]
  by_cases hd : isDeclOf k n d = true
  · by_cases hs : hasEntry s.index k n = true
    · rw [collectStep_entryCount_of_dup s d k n hd hs]
      simp [hd, hs]
      omega
    · rw [collectStep_entryCount_of_new s d k n hd (Bool.eq_false_iff.mpr hs)]
      simp [hd, Bool.eq_false_iff.mpr hs]
      omega
  · rw [collectStep_entryCount_of_not s d k n (Bool.eq_false_iff.mpr hd)]
    simp [Bool.eq_false_iff.mpr hd]

theorem foldl_collectStep_count_sum :
    ∀ (decls : List RawDecl) (s : CollectState) (k : Kind) (n : String),
    dupWarnCount (decls.foldl collectStep s).warnings k n
      + entryCount (decls.foldl collectStep s).index k n
      = dupWarnCount s.warnings k n + entryCount s.index k n
        + decls.countP (isDeclOf k n) := by
  intro decls
  induction decls with
  | nil => intro s k n; simp
  | cons d rest ih =>
    intro s k n
    simp only [List.foldl_cons, List.countP_cons]
    rw [ih (collectStep s d) k n, collectStep_count_step]
    omega

theorem collectStep_find_preserve (s : CollectState) (d : RawDecl) (k : Kind)
    (n : String) (e : Entry)
    (h : ((s.index.groups k).find? fun x => x.name == n) = some e) :
    (((collectStep s d).index.groups k).find? fun x => x.name == n) = some e := by
  rcases d with ⟨ok, onam, dsum, dlink⟩
  cases ok with
  | none => simpa [collectStep] using h
  | some k0 =>
    cases onam with
    | none => simpa [collectStep] using h
    | some n0 =>
      by_cases hany : ((s.index.groups k0).any fun e => e.name == n0) = true
      · rw [collectStep_eq_dup s k0 n0 dsum dlink hany]
        exact h
      · rw [collectStep_eq_insert s k0 n0 dsum dlink (Bool.eq_false_iff.mpr hany)]
        by_cases hk : k = k0
        · subst hk
          show List.find? (fun x => x.name == n)
              (if k = k then s.index.groups k ++ [⟨n0, dsum, dlink⟩] else s.index.groups k)
              = some e
          rw [if_pos rfl, List.find?_append, h]
          rfl
        · show List.find? (fun x => x.name == n)
              (if k = k0 then s.index.groups k0 ++ [⟨n0, dsum, dlink⟩] else s.index.groups k)
              = some e
          rw [if_neg hk]
          exact h

theorem foldl_collectStep_find_preserve :
    ∀ (decls : List RawDecl) (s : CollectState) (k : Kind) (n : String) (e : Entry),
    ((s.index.groups k).find? fun x => x.name == n) = some e →
    (((decls.foldl collectStep s).index.groups k).find? fun x => x.name == n) = some e := by
  intro decls
  induction decls with
  | nil => intro s k n e h; simpa using h
  | cons d rest ih =>
    intro s k n e h
    simp only [List.foldl_cons]
    exact ih (collectStep s d) k n e (collectStep_find_preserve s d k n e h)

theorem foldl_collectStep_find :
    ∀ (decls : List RawDecl) (s : CollectState) (k : Kind) (n : String),
    hasEntry s.index k n = false →
    (((decls.foldl collectStep s).index.groups k).find? fun x => x.name == n)
      = (decls.find? (isDeclOf k n)).map (fun d => mkEntry n d) := by
  intro decls
  induction decls with
  | nil =>
    intro s k n h
    simp only [List.foldl_nil, List.find?_nil, Option.map_none']
    rw [List.find?_eq_none]
    intro x hx
    exact (List.any_eq_false.mp h) x hx
  | cons d rest ih =>
    intro s k n h
    simp only [List.foldl_cons]
    by_cases hd : isDeclOf k n d = true
    · obtain ⟨hk, hn⟩ := isDeclOf_fields hd
      rcases d with ⟨ok, onam, dsum, dlink⟩
      simp only at hk hn
      subst hk; subst hn
      rw [List.find?_cons_of_pos rest hd, Option.map_some']
      apply foldl_collectStep_find_preserve rest (collectStep s ⟨some k, some n, dsum, dlink⟩)
      rw [collectStep_eq_insert s k n dsum dlink h]
      show List.find? (fun x => x.name == n)
          (if k = k then s.index.groups k ++ [⟨n, dsum, dlink⟩] else s.index.groups k)
          = some (mkEntry n ⟨some k, some n, dsum, dlink⟩)
      rw [if_pos rfl, List.find?_append]
      rw [show ((s.index.groups k).find? fun x => x.name == n) = none from by
        rw [List.find?_eq_none]; intro x hx; exact (List.any_eq_false.mp h) x hx]
      rw [Option.none_or]
      simp [List.find?_cons, mkEntry]
    · rw [List.find?_cons_of_neg rest hd]
      have hs2 : hasEntry (collectStep s d).index k n = false := by
        rw [collectStep_hasEntry, h, Bool.eq_false_iff.mpr hd]
        rfl
      exact ih (collectStep s d) k n hs2

/-- C5: when the input contains exactly two declarations of the same
(Kind, name), exactly one entry with that (Kind, name) appears in the
resulting ModuleIndex, the surviving entry is the one made from the first
such declaration in input order, and exactly one duplicate warning is
recorded for the pair. -/
theorem collect_duplicate_pair_policy (decls : List RawDecl) (k : Kind) (n : String)
    (h : decls.countP (isDeclOf k n) = 2) :
    entryCount (collect decls).index k n = 1 ∧
    dupWarnCount (collect decls).warnings k n = 1 ∧
    ((collect decls).index.groups k).find? (fun e => e.name == n)
      = (decls.find? (isDeclOf k n)).map (fun d => mkEntry n d) := by
  have hany : decls.any (isDeclOf k n) = true := by
    by_contra hc
    have h0 : decls.countP (isDeclOf k n) = 0 :=
      List.countP_eq_zero.mpr (List.any_eq_false.mp (Bool.eq_false_iff.mpr hc))
    omega
  have hec : entryCount (collect decls).index k n = 1 := by
    have hcnt := foldl_collectStep_entryCount decls ⟨emptyIndex, []⟩ k n
    rw [collect]
    rw [hcnt]
    simp [entryCount, emptyIndex, hasEntry, hany]
  refine ⟨hec, ?_, ?_⟩
  · have hsum := foldl_collectStep_count_sum decls ⟨emptyIndex, []⟩ k n
    rw [collect]
    rw [collect] at hec
    dsimp only at hsum
    have hz1 : dupWarnCount [] k n = 0 := rfl
    have hz2 : entryCount emptyIndex k n = 0 := rfl
    rw [hz1, hz2, h] at hsum
    omega
  · rw [collect]
    exact foldl_collectStep_find decls ⟨emptyIndex, []⟩ k n rfl

/-- Two declarations with the same (Kind, name) and one unrelated one. -/
def dupScenarioDecls : List RawDecl :=
  [ ⟨some .kFn, some "build_call", "first version", none⟩,
    ⟨some .kFn, some "build_call", "second version", none⟩,
    ⟨some .kMod, some "seal", "", none⟩ ]

/-- Witness for C5 on a concrete pair of duplicate declarations. -/
theorem collect_duplicate_pair_policy_witness :
    dupScenarioDecls.countP (isDeclOf .kFn "build_call") = 2 ∧
    (entryCount (collect dupScenarioDecls).index .kFn "build_call" = 1 ∧
     dupWarnCount (collect dupScenarioDecls).warnings .kFn "build_call" = 1 ∧
     ((collect dupScenarioDecls).index.groups .kFn).find? (fun e => e.name == "build_call")
       = (dupScenarioDecls.find? (isDeclOf .kFn "build_call")).map
           (fun d => mkEntry "build_call" d)) :=
  ⟨by decide, collect_duplicate_pair_policy dupScenarioDecls .kFn "build_call" (by decide)⟩

/-- Does a declaration contribute some entry of kind k? -/
def hasKind (k : Kind) (d : RawDecl) : Bool :=
  d.kind == some k && d.name.isSome

theorem collectStep_group_isEmpty (s : CollectState) (d : RawDecl) (k : Kind) :
    ((collectStep s d).index.groups k).isEmpty
      = ((s.index.groups k).isEmpty && !(hasKind k d)) := by
  rcases d with ⟨ok, onam, dsum, dlink⟩
  cases ok with
  | none => simp [collectStep, hasKind, none_beq_some]
  | some k0 =>
    cases onam with
    | none => simp [collectStep, hasKind]
    | some n0 =>
      by_cases hany : ((s.index.groups k0).any fun e => e.name == n0) = true
      · rw [collectStep_eq_dup s k0 n0 dsum dlink hany]
        by_cases hk : k0 = k
        · subst hk
          have hne : (s.index.groups k0).isEmpty = false := by
            rcases List.any_eq_true.mp hany with ⟨x, hx, _⟩
            cases hgr : s.index.groups k0 with
            | nil => rw [hgr] at hx; simp at hx
            | cons a l => simp
          simp [hne]
        · simp [hasKind, some_beq_some, beq_eq_false_iff_ne.mpr hk]
      · rw [collectStep_eq_insert s k0 n0 dsum dlink (Bool.eq_false_iff.mpr hany)]
        by_cases hk : k = k0
        · subst hk
          show (if k = k then s.index.groups k ++ [⟨n0, dsum, dlink⟩]
                else s.index.groups k).isEmpty
              = ((s.index.groups k).isEmpty && !(hasKind k ⟨some k, some n0, dsum, dlink⟩))
          rw [if_pos rfl]
          cases hgr : s.index.groups k <;>
            simp [hasKind, some_beq_some, beq_self_eq_true]
        · show (if k = k0 then s.index.groups k0 ++ [⟨n0, dsum, dlink⟩]
                else s.index.groups k).isEmpty
              = ((s.index.groups k).isEmpty && !(hasKind k ⟨some k0, some n0, dsum, dlink⟩))
          rw [if_neg hk]
          simp [hasKind, some_beq_some, beq_eq_false_iff_ne.mpr (fun h2 => hk h2.symm)]

theorem foldl_collectStep_group_isEmpty :
    ∀ (decls : List RawDecl) (s : CollectState) (k : Kind),
    ((decls.foldl collectStep s).index.groups k).isEmpty
      = ((s.index.groups k).isEmpty && !(decls.any (hasKind k))) := by
  intro decls
  induction decls with
  | nil => intro s k; simp
  | cons d rest ih =>
    intro s k
    simp only [List.foldl_cons, List.any_cons]
    rw [ih, collectStep_group_isEmpty]
    cases (s.index.groups k).isEmpty <;> cases hasKind k d <;> simp

theorem perm_any_eq {α : Type} (p : α → Bool) :
    ∀ {l1 l2 : List α}, l1.Perm l2 → l1.any p = l2.any p := by
  intro l1 l2 h
  induction h with
  | nil => rfl
  | cons x _ ih => simp [List.any_cons, ih]
  | swap x y l => simp [List.any_cons, Bool.or_left_comm]
  | trans _ _ ih1 ih2 => exact ih1.trans ih2

theorem serializeData_map_fst (ov : OverrideOrder) (m : ModuleIndex) :
    (serializeData ov m).map Prod.fst
      = kindPrecedence.filter (fun k => !(m.groups k).isEmpty) := by
  simp only [serializeData, List.map_map]
  have hc : (Prod.fst ∘ fun k => (k, orderEntries ov k (m.groups k))) = fun k => k := rfl
  rw [hc]
  simp

/-- C8: the kinds of the serialized artifact appear as a subsequence of the
fixed, predeclared precedence list, and the sequence of kinds is identical
for any two permutations of the same input declarations (independent of
insertion order). -/
theorem serialized_kind_order_fixed (ov : OverrideOrder) (l1 l2 : List RawDecl)
    (h : l1.Perm l2) :
    ((serializeData ov (collect l1).index).map Prod.fst).Sublist kindPrecedence ∧
    (serializeData ov (collect l1).index).map Prod.fst
      = (serializeData ov (collect l2).index).map Prod.fst := by
  constructor
  · rw [serializeData_map_fst]
    exact List.filter_sublist kindPrecedence
  · rw [serializeData_map_fst, serializeData_map_fst]
    apply List.filter_congr
    intro k _
    rw [collect, collect, foldl_collectStep_group_isEmpty, foldl_collectStep_group_isEmpty]
    rw [perm_any_eq (hasKind k) h]

/-- The scenario declarations in a different insertion order. -/
def scenarioDeclsShuffled : List RawDecl :=
  [ ⟨some .kMod, some "seal", "", none⟩,
    ⟨some .kTrait, some "IndicateReturnType", "Types that can be used in [`CallBuilder::returns`] to signal return type.", none⟩,
    ⟨some .kStruct, some "CallParams", "The final parameters to the cross-contract call.", none⟩,
    ⟨some .kStruct, some "CallBuilder", "Builds up a cross contract call.", none⟩,
    ⟨some .kFn, some "build_call", "Returns a new [`CallBuilder`] to build up the parameters to a cross-contract call.", none⟩ ]

set_option maxRecDepth 8000 in
/-- Witness for C8: the scenario input and its reversal produce the same
kind sequence. -/
theorem serialized_kind_order_fixed_witness :
    scenarioDecls.Perm scenarioDeclsShuffled ∧
    (((serializeData noOverride (collect scenarioDecls).index).map Prod.fst).Sublist
        kindPrecedence ∧
     (serializeData noOverride (collect scenarioDecls).index).map Prod.fst
       = (serializeData noOverride (collect scenarioDeclsShuffled).index).map Prod.fst) :=
  ⟨by decide, serialized_kind_order_fixed noOverride scenarioDecls scenarioDeclsShuffled
    (by decide)⟩

/-- Result a read-only consumer obtains from a ModuleIndex. -/
inductive ReadResult where
  | artifact (t : Except String String)
  | entries (es : List Entry)

/-- Operations available on a ModuleIndex after the index-generation pass.
Modelled from the spec (sections 3 and 6): serialization and read-only
renderer access by kind. -/
inductive ReadOp where
  | serializeOp (ov : OverrideOrder)
  | renderOp (k : Kind)

/-- Apply one post-generation operation, returning its result together
with the ModuleIndex it leaves behind. -/
def applyReadOp (m : ModuleIndex) : ReadOp → ReadResult × ModuleIndex
  | .serializeOp ov => (.artifact (serialize ov m), m)
  | .renderOp k => (.entries (m.groups k), m)

/-- Apply a sequence of post-generation operations, threading the
ModuleIndex through. -/
def applyReadOps (m : ModuleIndex) : List ReadOp → List ReadResult × ModuleIndex
  | [] => ([], m)
  | op :: ops =>
    let r := applyReadOp m op
    let rest := applyReadOps r.2 ops
    (r.1 :: rest.1, rest.2)

/-- A store of module indices keyed by module path.  Modelled from the
spec (section 3): a ModuleIndex is identified by a module path, an ordered
sequence of path segments. -/
def Store : Type := List String → Option ModuleIndex

/-- Regeneration: the module's index is replaced wholesale by a freshly
collected one; no in-place update of the old index occurs.  Modelled from
the spec (section 3). -/
def regenerate (st : Store) (p : List String) (decls : List RawDecl) : Store :=
  fun q => if q = p then some (collect decls).index else st q

/-- C9: a ModuleIndex is never mutated after construction: any sequence of
post-generation operations (serialization, renderer reads) leaves it
exactly equal to the index the Entry Collector produced, and regeneration
replaces the index at the regenerated path wholesale while leaving every
other path untouched. -/
theorem module_index_immutable (m : ModuleIndex) (ops : List ReadOp) :
    (applyReadOps m ops).2 = m ∧
    ∀ (st : Store) (p : List String) (decls : List RawDecl),
      regenerate st p decls p = some (collect decls).index ∧
      ∀ q, q ≠ p → regenerate st p decls q = st q := by
  constructor
  · induction ops generalizing m with
    | nil => rfl
    | cons op rest ih =>
      have h2 : (applyReadOp m op).2 = m := by cases op <;> rfl
      calc (applyReadOps m (op :: rest)).2
          = (applyReadOps (applyReadOp m op).2 rest).2 := rfl
        _ = (applyReadOp m op).2 := ih _
        _ = m := h2
  · intro st p decls
    constructor
    · simp [regenerate]
    · intro q hq
      simp [regenerate, hq]

/-- Witness for C9 at the scenario index and a two-element store. -/
theorem module_index_immutable_witness :
    (applyReadOps (collect scenarioDecls).index
        [ReadOp.renderOp Kind.kFn, ReadOp.serializeOp noOverride]).2
      = (collect scenarioDecls).index ∧
    ((["x"] : List String) ≠ ["y"]) ∧
    regenerate ((fun _ => none) : Store) ["y"] scenarioDecls ["x"]
      = ((fun _ => none) : Store) ["x"] :=
  ⟨(module_index_immutable (collect scenarioDecls).index
      [ReadOp.renderOp Kind.kFn, ReadOp.serializeOp noOverride]).1,
   by decide,
   ((module_index_immutable (collect scenarioDecls).index []).2
      ((fun _ => none) : Store) ["y"] scenarioDecls).2 ["x"] (by decide)⟩

/-- Parse a serialized artifact entry: exactly a two-element list of
strings yields an Entry carrying no link target. -/
def parseEntry : List String → Option Entry
  | [n, s] => some ⟨n, s, none⟩
  | _ => none

/-- C10: every entry of the published artifact is exactly a two-element
pair of strings, parsing to an Entry whose optional link target is absent,
and the artifact's mod group contains the seal entry with an empty summary
string. -/
theorem artifact_entries_pairs :
    (∀ kv, kv ∈ initSidebarItemsArg → ∀ e, e ∈ kv.2 →
      e.length = 2 ∧ ∃ en : Entry, parseEntry e = some en ∧ en.link = none) ∧
    ("mod", [["seal", ""]]) ∈ initSidebarItemsArg := by
  constructor
  · intro kv hkv e he
    fin_cases hkv <;> fin_cases he <;> exact ⟨rfl, _, rfl, rfl⟩
  · simp [initSidebarItemsArg]

/-- Witness for C10 at the seal entry. -/
theorem artifact_entries_pairs_witness :
    ("mod", [["seal", ""]]) ∈ initSidebarItemsArg ∧
    (["seal", ""].length = 2 ∧
     ∃ en : Entry, parseEntry ["seal", ""] = some en ∧ en.link = none) :=
  ⟨artifact_entries_pairs.2,
   artifact_entries_pairs.1 ("mod", [["seal", ""]]) artifact_entries_pairs.2
     ["seal", ""] (by decide)⟩
